import Mathlib

/-!
Shallow embedding of src/HoangChu_Ascenda_OA.py (class APIHandling).

Python exceptions are modelled with Except PyErr; Python's implicit None
return value (reachable in _is_expired) is modelled with Option Bool.
Strings are processed through their character lists; printing and the
debug-file dumps of class TestFilter are I/O side effects with no bearing
on the returned values, so they are not modelled.
-/

/-- The kinds of Python exceptions the embedded code can raise. -/
inductive PyErr where
  | assertionError
  | keyError
  | indexError
  | valueError
  | attributeError
  | typeError
  deriving DecidableEq, Repr

deriving instance DecidableEq for Except

/-- The Python test `'0' <= char <= '9'` on a character. -/
def isDigitChar (c : Char) : Bool := decide ('0' ≤ c) && decide (c ≤ '9')

/-- Python's str.split(sep) on a list of characters: "".split(sep) is [""],
and every separator occurrence opens a new (possibly empty) field. -/
def pySplit (l : List Char) (sep : Char) : List (List Char) :=
  match l with
  | [] => [[]]
  | c :: rest =>
    let r := pySplit rest sep
    if c = sep then [] :: r
    else
      match r with
      | f :: fs => (c :: f) :: fs
      | [] => [[c]]

/-- Numeric value of a list of decimal digit characters, most significant first. -/
def digitsVal (l : List Char) : Int :=
  l.foldl (fun a c => a * 10 + ((c.toNat : Int) - 48)) 0

/-- Python's int(s) on the strings this program feeds it. The fields come from
splitting on the separator character, so they never contain a sign or blank:
int succeeds exactly on non-empty all-digit fields and raises ValueError
otherwise (in particular on the empty string). -/
def pyInt (l : List Char) : Except PyErr Int :=
  if l.isEmpty then .error .valueError
  else if l.all isDigitChar then .ok (digitsVal l) else .error .valueError

/-- Embeds _get_year_month_day_from_str (src lines 103-122).
Splits on "-"; the tuple unpack indexes fields 0, 1, 2 (IndexError when
fewer than three fields); if field 1 has length 4 it becomes the year with
fields 0, 2 as month, day; then, overriding, if field 2 has length 4 it
becomes the year with fields 0, 1 as month, day; finally the three chosen
fields are converted with int() in year, month, day order. -/
def get_year_month_day_from_str (curDateStr : String) : Except PyErr (Int × Int × Int) :=
  match pySplit curDateStr.data '-' with
  | f0 :: f1 :: f2 :: _ =>
    let a := if f1.length = 4 then (f1, f0, f2) else (f0, f1, f2)
    let b := if f2.length = 4 then (f2, f0, f1) else a
    match pyInt b.1 with
    | .error e => .error e
    | .ok y =>
      match pyInt b.2.1 with
      | .error e => .error e
      | .ok m =>
        match pyInt b.2.2 with
        | .error e => .error e
        | .ok d => .ok (y, m, d)
  | _ => .error .indexError

/-- Embeds is_leap_year (src lines 124-129): year % 4 == 0.
Int.emod agrees with Python's % on a positive modulus. -/
def is_leap_year (year : Int) : Bool := year % 4 == 0

/-- The value _get_no_days_in (src lines 131-143) computes once its
assertion 1 <= month <= 12 has passed. -/
def no_days_in_val (year month : Int) : Int :=
  if month = 2 then (if is_leap_year year then 29 else 28)
  else if month = 4 ∨ month = 6 ∨ month = 9 ∨ month = 11 then 30 else 31

/-- Embeds _get_no_days_in (src lines 131-143), with its assertion. -/
def get_no_days_in (year month : Int) : Except PyErr Int :=
  if 1 ≤ month ∧ month ≤ 12 then .ok (no_days_in_val year month) else .error .assertionError

/-- Embeds _is_valid_date (src lines 145-181). The is_testing parameter only
controls printing and is dropped. Empty string and any character outside
digits and "-" give False before parsing; then the parsed month must lie in
[1, 12] and the day in [1, _get_no_days_in(year, month)]. Exceptions raised
while parsing propagate. -/
def is_valid_date (s : String) : Except PyErr Bool :=
  if s.data = [] then .ok false
  else if !(s.data.all fun c => isDigitChar c || c = '-') then .ok false
  else
    match get_year_month_day_from_str s with
    | .error e => .error e
    | .ok (y, m, d) =>
      if 1 ≤ m ∧ m ≤ 12 then
        match get_no_days_in y m with
        | .error e => .error e
        | .ok lastDay => if 1 ≤ d ∧ d ≤ lastDay then .ok true else .ok false
      else .ok false

/-- Embeds _get_last_stay_date (src lines 183-218): asserts the date string
valid, returns the sentinel (-1, -1, -1) when no_extended_days > 31, and
otherwise adds the days, rolling into the next month (month 13 wrapping to
month 1 of the next year) when the sum exceeds the month's length. -/
def get_last_stay_date (dateStr : String) (noExtendedDays : Int) : Except PyErr (Int × Int × Int) :=
  match is_valid_date dateStr with
  | .error e => .error e
  | .ok b =>
    if b = true then
      if noExtendedDays > 31 then .ok (-1, -1, -1)
      else
        match get_year_month_day_from_str dateStr with
        | .error e => .error e
        | .ok (cy, cm, cd) =>
          match get_no_days_in cy cm with
          | .error e => .error e
          | .ok days =>
            if cd + noExtendedDays > days then
              if cm + 1 > 12 then .ok (cy + 1, 1, cd + noExtendedDays - days)
              else .ok (cy, cm + 1, cd + noExtendedDays - days)
            else .ok (cy, cm, cd + noExtendedDays)
    else .error .assertionError

/-- Embeds _is_expired (src lines 220-252). The checkin_date parameter of the
source is effectively dead: line 233 always reads self.checkin_date, here the
checkin argument. When the staying year equals the expiry year but the staying
month is less, the Python function falls off the if/elif chain and returns
None; that third outcome is Option.none here. -/
def is_expired (checkin validToDateStr : String) (noExtendedDays : Int) :
    Except PyErr (Option Bool) :=
  match get_last_stay_date checkin noExtendedDays with
  | .error e => .error e
  | .ok (cy, cm, cd) =>
    match get_year_month_day_from_str validToDateStr with
    | .error e => .error e
    | .ok (ey, em, ed) =>
      if cy > ey then .ok (some true)
      else if cy = ey then
        if cm > em then .ok (some true)
        else if cm = em then
          if cd > ed then .ok (some true) else .ok (some false)
        else .ok none
      else .ok (some false)

/-- A merchant record: a JSON object with a 'distance' key plus other
key-value fields passed through untouched (modelled opaquely as pairs of
strings; JSON object keys are strings, never the integer 0). -/
structure Merchant where
  distance : Int
  extra : List (String × String)
  deriving DecidableEq, Repr

/-- The merchants field of an offer: either a single merchant record (a JSON
object) or an ordered list of merchant records. -/
inductive Merchants where
  | single : Merchant → Merchants
  | many : List Merchant → Merchants
  deriving DecidableEq, Repr

/-- An offer record with the fields the pipeline reads. -/
structure Offer where
  id : Int
  category : Int
  validTo : String
  merchants : Merchants
  deriving DecidableEq, Repr

/-- True when a merchants field is a single merchant record. -/
def is_single_merchant : Merchants → Bool
  | .single _ => true
  | .many _ => false

/-- True when a merchants field is a non-empty list of merchant records. -/
def is_nonempty_merchant_list : Merchants → Bool
  | .single _ => false
  | .many ms => !ms.isEmpty

/-- The distance of an offer's merchant. Meaningful only when the merchants
field is a single record; every statement using it carries that hypothesis. -/
def mdist (o : Offer) : Int :=
  match o.merchants with
  | .single m => m.distance
  | .many _ => 0

/-- True when a category id is one of the four CATEGORY enum values. -/
def is_valid_category_id (cid : Int) : Bool :=
  cid = 1 || cid = 2 || cid = 3 || cid = 4

/-- Embeds _get_category_enum (src lines 74-82): asserts the id is a CATEGORY
value, then returns the enum member's name. -/
def get_category_enum (categoryId : Int) : Except PyErr String :=
  if categoryId = 1 then .ok "RESTAURANT"
  else if categoryId = 2 then .ok "RETAIL"
  else if categoryId = 3 then .ok "HOTEL"
  else if categoryId = 4 then .ok "ACTIVITY"
  else .error .assertionError

/-- Embeds _standardize_category_names (src lines 67-72): uppercase each name
(the names used here are ASCII, where str.upper agrees with Char.toUpper). -/
def standardize_category_names (categoryNames : List String) : List String :=
  categoryNames.map (fun s => ⟨s.data.map Char.toUpper⟩)

/-- Appending an offer under a key in a Python dict of lists, preserving the
dict's insertion order of keys. -/
def add_to_map (m : List (String × List Offer)) (k : String) (o : Offer) :
    List (String × List Offer) :=
  match m with
  | [] => [(k, [o])]
  | (k2, os) :: rest =>
    if k2 = k then (k2, os ++ [o]) :: rest else (k2, os) :: add_to_map rest k o

/-- The loop of _get_category_offers_map over the remaining offers, carrying
the map built so far. -/
def build_category_offers_map (offers : List Offer) (acc : List (String × List Offer)) :
    Except PyErr (List (String × List Offer)) :=
  match offers with
  | [] => .ok acc
  | o :: rest =>
    match get_category_enum o.category with
    | .error e => .error e
    | .ok name => build_category_offers_map rest (add_to_map acc name o)

/-- Embeds _get_category_offers_map (src lines 84-101): groups the current
offers by category name, keys in first-occurrence order, offers of a category
in working-set order. The `assert KEYWORD in offer` cannot fail here because
the Offer record always carries a category field. -/
def get_category_offers_map (offers : List Offer) : Except PyErr (List (String × List Offer)) :=
  build_category_offers_map offers []

/-- Python dict lookup map[k]: KeyError when the key is absent. -/
def map_lookup (m : List (String × List Offer)) (k : String) : Except PyErr (List Offer) :=
  match m with
  | [] => .error .keyError
  | (k2, os) :: rest => if k2 = k then .ok os else map_lookup rest k

/-- The answers.extend loop of category_filter over the requested names. -/
def extend_loop (mp : List (String × List Offer)) (names : List String) :
    Except PyErr (List Offer) :=
  match names with
  | [] => .ok []
  | name :: rest =>
    match map_lookup mp name with
    | .error e => .error e
    | .ok os =>
      match extend_loop mp rest with
      | .error e => .error e
      | .ok tail => .ok (os ++ tail)

/-- Embeds category_filter (src lines 330-347): uppercases the requested
names, builds the category map from the current working set, and concatenates
the map entries of the requested names in request order; a requested name
absent from the map raises KeyError. -/
def category_filter (desiredCategories : List String) (offers : List Offer) :
    Except PyErr (List Offer) :=
  match get_category_offers_map offers with
  | .error e => .error e
  | .ok mp => extend_loop mp (standardize_category_names desiredCategories)

/-- Whether date_filter keeps an offer: Python's `not x` on the value returned
by _is_expired, where both False and the fall-through None are falsy. -/
def not_truthy : Option Bool → Bool
  | some true => false
  | some false => true
  | none => true

/-- Embeds date_filter (src lines 349-366): keeps, in order, the offers whose
_is_expired result is falsy; exceptions from _is_expired propagate. -/
def date_filter (checkin : String) (noExtendedDays : Int) (offers : List Offer) :
    Except PyErr (List Offer) :=
  match offers with
  | [] => .ok []
  | o :: rest =>
    match is_expired checkin o.validTo noExtendedDays with
    | .error e => .error e
    | .ok v =>
      match date_filter checkin noExtendedDays rest with
      | .error e => .error e
      | .ok tail => .ok (if not_truthy v then o :: tail else tail)

/-- Stable insertion of a merchant into a list sorted ascending by distance:
the new element goes before the first element whose distance is not less,
which reproduces the order Python's stable list.sort produces. -/
def insert_merchant_by_dist (x : Merchant) : List Merchant → List Merchant
  | [] => [x]
  | y :: ys =>
    if y.distance < x.distance then y :: insert_merchant_by_dist x ys else x :: y :: ys

/-- Python's stable sort of a merchant list by the 'distance' key. -/
def sort_merchants_by_dist : List Merchant → List Merchant
  | [] => []
  | x :: xs => insert_merchant_by_dist x (sort_merchants_by_dist xs)

/-- The body of merchant_filter for one offer (src lines 377-382).
On a list of merchant records: sort by distance when more than one, then
replace the field with element 0 (IndexError on an empty list).
On a single merchant record, a JSON object: len(obj) counts its keys; with
more than one key the code calls .sort on the object (AttributeError), and
otherwise indexes it with the integer 0 (KeyError, since JSON object keys
are strings). Either way a singular merchants field raises. -/
def merchant_filter_step (o : Offer) : Except PyErr Offer :=
  match o.merchants with
  | .many ms =>
    match (if ms.length > 1 then sort_merchants_by_dist ms else ms) with
    | m :: _ => .ok { o with merchants := .single m }
    | [] => .error .indexError
  | .single m =>
    if m.extra.length + 1 > 1 then .error .attributeError else .error .keyError

/-- Embeds merchant_filter (src lines 368-385): rewrites every offer in place
to carry only its closest merchant. -/
def merchant_filter (offers : List Offer) : Except PyErr (List Offer) :=
  match offers with
  | [] => .ok []
  | o :: rest =>
    match merchant_filter_step o with
    | .error e => .error e
    | .ok o2 =>
      match merchant_filter rest with
      | .error e => .error e
      | .ok rest2 => .ok (o2 :: rest2)

/-- Stable insertion of an offer into a list sorted ascending by merchant
distance, mirroring Python's stable list.sort with a distance key. -/
def insert_offer_by_dist (x : Offer) : List Offer → List Offer
  | [] => [x]
  | y :: ys =>
    if mdist y < mdist x then y :: insert_offer_by_dist x ys else x :: y :: ys

/-- Python's stable sort of an offer list by offer['merchants']['distance']. -/
def sort_offers_by_dist : List Offer → List Offer
  | [] => []
  | x :: xs => insert_offer_by_dist x (sort_offers_by_dist xs)

/-- The loop of closest_merchant_per_category_filter over the category map
entries (src lines 395-397). Python's list.sort computes the key
offer['merchants']['distance'] for every element first: indexing a merchant
list with the string 'distance' raises TypeError, so the sort succeeds only
when every offer of the group carries a single merchant record; then element
0 of the sorted group is kept. -/
def closest_per_entry_loop (entries : List (String × List Offer)) : Except PyErr (List Offer) :=
  match entries with
  | [] => .ok []
  | (_, os) :: rest =>
    if os.all (fun o => is_single_merchant o.merchants) then
      match sort_offers_by_dist os with
      | [] => .error .indexError
      | top :: _ =>
        match closest_per_entry_loop rest with
        | .error e => .error e
        | .ok tail => .ok (top :: tail)
    else .error .typeError

/-- Embeds closest_merchant_per_category_filter (src lines 387-401): groups
the working set by category name and keeps, per category, the offer whose
merchant is closest. -/
def closest_merchant_per_category_filter (offers : List Offer) : Except PyErr (List Offer) :=
  match get_category_offers_map offers with
  | .error e => .error e
  | .ok mp => closest_per_entry_loop mp

/-- The loop of _get_closest_merchant_offer (src lines 279-295), carrying the
running minimum distance (None for math.inf) and the best offer so far.
For an unseen offer the code asserts 'distance' in offer['merchants']: on a
list of merchant records that membership test is False (AssertionError); on a
single record it finds the key and compares its distance strictly against the
minimum. -/
def closest_loop : List Offer → List Int → Option Int → Option Offer →
    Except PyErr (Option Offer)
  | [], _, _, best => .ok best
  | o :: rest, seen, minDist, best =>
    if o.id ∈ seen then closest_loop rest seen minDist best
    else
      match o.merchants with
      | .many _ => .error .assertionError
      | .single m =>
        if (match minDist with | none => true | some v => decide (m.distance < v)) then
          closest_loop rest seen (some m.distance) (some o)
        else closest_loop rest seen minDist best

/-- Embeds _get_closest_merchant_offer (src lines 272-295): linear scan for
the offer with the closest merchant among offers whose id is not in the seen
set, returning None when every offer is seen. -/
def get_closest_merchant_offer (offers : List Offer) (seen : List Int) :
    Except PyErr (Option Offer) :=
  closest_loop offers seen none none

/-- Embeds top_two_offers_filter (src lines 403-428): picks the globally
closest-merchant offer, then repeats once excluding the first pick's id,
keeping up to two offers. (When the first scan returns None the code runs the
second scan with the same empty seen set, which returns None again; and line
424 re-adds the first pick's id instead of the second's, which has no further
effect.) -/
def top_two_offers_filter (offers : List Offer) : Except PyErr (List Offer) :=
  match get_closest_merchant_offer offers [] with
  | .error e => .error e
  | .ok (some o1) =>
    match get_closest_merchant_offer offers [o1.id] with
    | .error e => .error e
    | .ok (some o2) => .ok [o1, o2]
    | .ok none => .ok [o1]
  | .ok none =>
    match get_closest_merchant_offer offers [] with
    | .error e => .error e
    | .ok (some o2) => .ok [o2]
    | .ok none => .ok []

/-- Embeds _is_valid_response (src lines 37-44): prints a complaint on a
non-200 status code but returns True for every response. -/
def is_valid_response (statusCode : Int) : Bool := true

/-- Embeds _validate_input (src lines 46-53): Python's `A and B` where A is
_is_valid_response(response) (always True, hence truthy) and B is
_is_valid_date(_checkin_date, False). -/
def validate_input (statusCode : Int) (checkinDate : String) : Except PyErr Bool :=
  if is_valid_response statusCode then is_valid_date checkinDate else .ok false

theorem pyInt_ok (l : List Char) (h1 : l ≠ []) (h2 : l.all isDigitChar = true) :
    pyInt l = .ok (digitsVal l) := by
  cases l with
  | nil => exact absurd rfl h1
  | cons c cs => simp [pyInt, h2]

theorem get_no_days_in_eq (y m : Int) (h1 : 1 ≤ m) (h2 : m ≤ 12) :
    get_no_days_in y m = .ok (no_days_in_val y m) := by
  unfold get_no_days_in
  rw [if_pos ⟨h1, h2⟩]

theorem valid_date_bounds (s : String) (h : is_valid_date s = .ok true) :
    ∃ y m d, get_year_month_day_from_str s = .ok (y, m, d) ∧
      1 ≤ m ∧ m ≤ 12 ∧ 1 ≤ d ∧ d ≤ no_days_in_val y m := by
  unfold is_valid_date at h
  split at h
  · exact absurd h (by simp)
  split at h
  · exact absurd h (by simp)
  split at h
  next e heq => exact absurd h (by simp)
  next y m d heq =>
    split at h
    next hm =>
      split at h
      next e heq2 =>
        rw [get_no_days_in_eq y m hm.1 hm.2] at heq2
        exact absurd heq2 (by simp)
      next lastDay heq2 =>
        rw [get_no_days_in_eq y m hm.1 hm.2] at heq2
        injection heq2 with hl
        split at h
        next hd => exact ⟨y, m, d, heq, hm.1, hm.2, hd.1, by omega⟩
        next hd => exact absurd h (by simp)
    next hm => exact absurd h (by simp)

theorem get_last_stay_date_eq (s : String) (y m d n : Int)
    (hv : is_valid_date s = .ok true)
    (hp : get_year_month_day_from_str s = .ok (y, m, d))
    (hn31 : n ≤ 31) :
    get_last_stay_date s n =
      .ok (if d + n > no_days_in_val y m then
            (if m + 1 > 12 then (y + 1, 1, d + n - no_days_in_val y m)
             else (y, m + 1, d + n - no_days_in_val y m))
           else (y, m, d + n)) := by
  obtain ⟨y2, m2, d2, hp2, hm1, hm2, _, _⟩ := valid_date_bounds s hv
  rw [hp] at hp2
  simp only [Except.ok.injEq, Prod.mk.injEq] at hp2
  obtain ⟨rfl, rfl, rfl⟩ := hp2
  simp [get_last_stay_date, hv, hp, get_no_days_in_eq y m hm1 hm2,
    show ¬ n > 31 from by omega,
    apply_ite (Except.ok : Int × Int × Int → Except PyErr (Int × Int × Int))]

/-- Claim C8: for every HTTP response the constructor's response validation
(_is_valid_response) returns True regardless of the status code — a non-200
response is only logged, never halts processing — so the combined input
validation reduces to checkin-date validity and construction succeeds exactly
when the checkin date string is valid. -/
theorem C8_response_validation_always_true (statusCode : Int) (checkinDate : String) :
    is_valid_response statusCode = true ∧
    validate_input statusCode checkinDate = is_valid_date checkinDate ∧
    (validate_input statusCode checkinDate = .ok true ↔ is_valid_date checkinDate = .ok true) :=
  ⟨rfl, rfl, Iff.rfl⟩

/-- Claim C6: for every valid date string and every extension count above 31,
addDays (_get_last_stay_date) does not raise: it returns the sentinel
invalid triple (-1, -1, -1) instead of computing a date. -/
theorem C6_add_days_sentinel (dateStr : String) (n : Int)
    (hv : is_valid_date dateStr = .ok true) (hn : n > 31) :
    get_last_stay_date dateStr n = .ok (-1, -1, -1) := by
  unfold get_last_stay_date
  rw [hv]
  simp [hn]

/-- Witness for C6 at the concrete input ("4-30-2023", 32). -/
theorem C6_add_days_sentinel_witness :
    is_valid_date "4-30-2023" = .ok true ∧ (32 : Int) > 31 ∧
    get_last_stay_date "4-30-2023" 32 = .ok (-1, -1, -1) :=
  ⟨by decide, by decide, C6_add_days_sentinel "4-30-2023" 32 (by decide) (by decide)⟩

/-- Claim C5: for every valid date string parsing to (year, month, day) and
every extension 0 ≤ n ≤ 31, addDays (_get_last_stay_date) returns
(year, month, day + n) when day + n does not exceed the month's length, and
otherwise rolls into the next month (month 13 wrapping to month 1 of the next
year) with day + n minus the month's length; in particular the three
addDays examples of the spec hold. -/
theorem C5_add_days (s : String) (y m d n : Int)
    (hv : is_valid_date s = .ok true)
    (hp : get_year_month_day_from_str s = .ok (y, m, d))
    (hn0 : 0 ≤ n) (hn31 : n ≤ 31) :
    (get_last_stay_date s n =
      .ok (if d + n ≤ no_days_in_val y m then (y, m, d + n)
           else if m + 1 > 12 then (y + 1, 1, d + n - no_days_in_val y m)
           else (y, m + 1, d + n - no_days_in_val y m))) ∧
    get_last_stay_date "4-30-2023" 5 = .ok (2023, 5, 5) ∧
    get_last_stay_date "4-25-2023" 5 = .ok (2023, 4, 30) ∧
    get_last_stay_date "2-28-2023" 2 = .ok (2023, 3, 2) := by
  refine ⟨?_, by decide, by decide, by decide⟩
  rw [get_last_stay_date_eq s y m d n hv hp hn31]
  rcases le_or_lt (d + n) (no_days_in_val y m) with hle | hlt
  · have h1 : ¬ d + n > no_days_in_val y m := by omega
    rw [if_neg h1, if_pos hle]
  · have h2 : ¬ d + n ≤ no_days_in_val y m := by omega
    rw [if_pos hlt, if_neg h2]

/-- Witness for C5 at the concrete input ("4-30-2023", 5). -/
theorem C5_add_days_witness :
    is_valid_date "4-30-2023" = .ok true ∧
    get_year_month_day_from_str "4-30-2023" = .ok (2023, 4, 30) ∧
    get_last_stay_date "4-30-2023" 5 = .ok (2023, 5, 5) :=
  ⟨by decide, by decide,
    (C5_add_days "4-30-2023" 2023 4 30 5 (by decide) (by decide) (by decide) (by decide)).2.1⟩

/-- Claim C4: on a date string of exactly three "-"-separated non-empty digit
fields where the year field alone is exactly 4 characters long (the
YYYY-MM-DD and MM-DD-YYYY orders), parseDate (_get_year_month_day_from_str)
returns the 4-character field as the year and the remaining two fields, in
their original left-to-right order, as month then day. -/
theorem C4_parse_date_field_order (s : String) (f0 f1 f2 : List Char)
    (hsplit : pySplit s.data '-' = [f0, f1, f2])
    (h0e : f0 ≠ []) (h0d : f0.all isDigitChar = true)
    (h1e : f1 ≠ []) (h1d : f1.all isDigitChar = true)
    (h2e : f2 ≠ []) (h2d : f2.all isDigitChar = true) :
    (f0.length = 4 → f1.length ≠ 4 → f2.length ≠ 4 →
      get_year_month_day_from_str s = .ok (digitsVal f0, digitsVal f1, digitsVal f2)) ∧
    (f2.length = 4 → f0.length ≠ 4 → f1.length ≠ 4 →
      get_year_month_day_from_str s = .ok (digitsVal f2, digitsVal f0, digitsVal f1)) := by
  constructor
  · intro h04 h1n h2n
    simp only [get_year_month_day_from_str, hsplit, h1n, h2n, if_false, if_neg]
    rw [pyInt_ok f0 h0e h0d, pyInt_ok f1 h1e h1d, pyInt_ok f2 h2e h2d]
  · intro h24 h0n h1n
    simp only [get_year_month_day_from_str, hsplit, h1n, h24, if_neg, if_pos]
    rw [pyInt_ok f2 h2e h2d, pyInt_ok f0 h0e h0d, pyInt_ok f1 h1e h1d]

/-- Witness for C4 at the concrete inputs "2023-11-05" (other case "11-05-2023"
follows from the same theorem). -/
theorem C4_parse_date_field_order_witness :
    pySplit "11-05-2023".data '-' = [['1','1'], ['0','5'], ['2','0','2','3']] ∧
    get_year_month_day_from_str "11-05-2023" = .ok (2023, 11, 5) := by
  refine ⟨by decide, ?_⟩
  have h := (C4_parse_date_field_order "11-05-2023" ['1','1'] ['0','5'] ['2','0','2','3']
    (by decide) (by decide) (by decide) (by decide) (by decide) (by decide) (by decide)).2
    (by decide) (by decide) (by decide)
  simpa using h

theorem pySplit_ne_nil (l : List Char) (sep : Char) : pySplit l sep ≠ [] := by
  cases l with
  | nil => simp [pySplit]
  | cons c rest =>
    simp only [pySplit]
    split
    · simp
    · split
      · simp
      · simp

theorem mem_pySplit (l : List Char) (sep c : Char) (hc : c ∈ l) :
    c = sep ∨ ∃ f ∈ pySplit l sep, c ∈ f := by
  induction l with
  | nil => cases hc
  | cons c0 rest ih =>
    by_cases h0 : c0 = sep
    · have hres : pySplit (c0 :: rest) sep = [] :: pySplit rest sep := by
        simp [pySplit, h0]
      rcases List.mem_cons.mp hc with heq | hr
      · exact Or.inl (heq.trans h0)
      · rcases ih hr with h | ⟨f, hfm, hcf⟩
        · exact Or.inl h
        · exact Or.inr ⟨f, by rw [hres]; exact List.mem_cons_of_mem _ hfm, hcf⟩
    · have hne := pySplit_ne_nil rest sep
      rcases hsp : pySplit rest sep with _ | ⟨f, fs⟩
      · exact absurd hsp hne
      · have hres : pySplit (c0 :: rest) sep = (c0 :: f) :: fs := by
          simp [pySplit, h0, hsp]
        rcases List.mem_cons.mp hc with heq | hr
        · exact Or.inr ⟨c0 :: f, by rw [hres]; exact List.mem_cons_self _ _,
            by rw [heq]; exact List.mem_cons_self _ _⟩
        · rcases ih hr with h | ⟨g, hgm, hcg⟩
          · exact Or.inl h
          · rw [hsp] at hgm
            rcases List.mem_cons.mp hgm with hgf | hgs
            · rw [hgf] at hcg
              exact Or.inr ⟨c0 :: f, by rw [hres]; exact List.mem_cons_self _ _,
                List.mem_cons_of_mem _ hcg⟩
            · exact Or.inr ⟨g, by rw [hres]; exact List.mem_cons_of_mem _ hgs, hcg⟩

theorem is_valid_date_total (s : String)
    (hlen : 3 ≤ (pySplit s.data '-').length)
    (hf : ∀ f ∈ pySplit s.data '-', f ≠ [] ∧ f.all isDigitChar = true) :
    ∃ b, is_valid_date s = .ok b := by
  have hnil : s.data ≠ [] := by
    intro h
    rw [h] at hlen
    simp [pySplit] at hlen
  have hchar : (s.data.all fun c => isDigitChar c || c = '-') = true := by
    rw [List.all_eq_true]
    intro c hc
    rcases mem_pySplit s.data '-' c hc with h | ⟨f, hfm, hcf⟩
    · simp [h]
    · have hall := (hf f hfm).2
      rw [List.all_eq_true] at hall
      simp [hall c hcf]
  rcases hsp : pySplit s.data '-' with _ | ⟨f0, _ | ⟨f1, _ | ⟨f2, rest⟩⟩⟩
  · exact absurd hsp (pySplit_ne_nil s.data '-')
  · rw [hsp] at hlen; simp at hlen
  · rw [hsp] at hlen; simp at hlen
  · have h0 := hf f0 (by rw [hsp]; simp)
    have h1 := hf f1 (by rw [hsp]; simp)
    have h2 := hf f2 (by rw [hsp]; simp)
    have hymd : ∃ t, get_year_month_day_from_str s = .ok t := by
      unfold get_year_month_day_from_str
      rw [hsp]
      by_cases hc1 : f1.length = 4 <;> by_cases hc2 : f2.length = 4 <;>
        simp [hc1, hc2, pyInt_ok f0 h0.1 h0.2, pyInt_ok f1 h1.1 h1.2, pyInt_ok f2 h2.1 h2.2]
    obtain ⟨⟨y, m, d⟩, ht⟩ := hymd
    simp only [is_valid_date, if_neg hnil, hchar, Bool.not_true, Bool.false_eq_true,
      if_false, ht]
    by_cases hm : 1 ≤ m ∧ m ≤ 12
    · simp only [if_pos hm, get_no_days_in_eq y m hm.1 hm.2]
      by_cases hd : 1 ≤ d ∧ d ≤ no_days_in_val y m
      · exact ⟨true, by rw [if_pos hd]⟩
      · exact ⟨false, by rw [if_neg hd]⟩
    · exact ⟨false, by rw [if_neg hm]⟩

/-- Claim C10: there are non-empty strings containing only digits and "-" on
which _is_valid_date raises instead of returning False: "1-2" (fewer than
three fields) raises IndexError and "1--2023" (an empty field) raises
ValueError from the integer conversion; the validator returns a Boolean on
every string that splits on "-" into at least three non-empty digit fields. -/
theorem C10_validator_raises :
    is_valid_date "1-2" = .error .indexError ∧
    is_valid_date "1--2023" = .error .valueError ∧
    ∀ s : String, 3 ≤ (pySplit s.data '-').length →
      (∀ f ∈ pySplit s.data '-', f ≠ [] ∧ f.all isDigitChar = true) →
      ∃ b, is_valid_date s = .ok b :=
  ⟨by decide, by decide, is_valid_date_total⟩

/-- Witness for the universally quantified part of C10 at "1-2-2023". -/
theorem C10_validator_raises_witness :
    3 ≤ (pySplit "1-2-2023".data '-').length ∧
    (∀ f ∈ pySplit "1-2-2023".data '-', f ≠ [] ∧ f.all isDigitChar = true) ∧
    ∃ b, is_valid_date "1-2-2023" = .ok b :=
  ⟨by decide, by decide, C10_validator_raises.2.2 "1-2-2023" (by decide) (by decide)⟩

theorem insert_merchant_ne_nil (x : Merchant) (l : List Merchant) :
    insert_merchant_by_dist x l ≠ [] := by
  cases l with
  | nil => simp [insert_merchant_by_dist]
  | cons y ys =>
    simp only [insert_merchant_by_dist]
    split <;> simp

theorem sort_merchants_ne_nil (x : Merchant) (xs : List Merchant) :
    sort_merchants_by_dist (x :: xs) ≠ [] := by
  simp only [sort_merchants_by_dist]
  exact insert_merchant_ne_nil x (sort_merchants_by_dist xs)

theorem merchant_filter_step_many_eq (oid ocat : Int) (ovt : String) (ms : List Merchant) :
    merchant_filter_step ⟨oid, ocat, ovt, .many ms⟩ =
      match (if ms.length > 1 then sort_merchants_by_dist ms else ms) with
      | m :: _ => .ok ⟨oid, ocat, ovt, .single m⟩
      | [] => .error .indexError := rfl

theorem merchant_filter_step_single_eq (oid ocat : Int) (ovt : String) (m : Merchant) :
    merchant_filter_step ⟨oid, ocat, ovt, .single m⟩ =
      (if m.extra.length + 1 > 1 then .error .attributeError else .error .keyError) := rfl

theorem merchant_filter_step_many (o : Offer) (h : is_nonempty_merchant_list o.merchants = true) :
    ∃ m, merchant_filter_step o = .ok { o with merchants := .single m } := by
  obtain ⟨oid, ocat, ovt, omer⟩ := o
  rcases omer with m | ms
  · simp [is_nonempty_merchant_list] at h
  · rcases ms with _ | ⟨m0, mrest⟩
    · simp [is_nonempty_merchant_list] at h
    · by_cases hlen : (m0 :: mrest).length > 1
      · rcases hss : sort_merchants_by_dist (m0 :: mrest) with _ | ⟨m1, ms1⟩
        · exact absurd hss (sort_merchants_ne_nil m0 mrest)
        · refine ⟨m1, ?_⟩
          rw [merchant_filter_step_many_eq, if_pos hlen, hss]
      · refine ⟨m0, ?_⟩
        rw [merchant_filter_step_many_eq, if_neg hlen]

theorem merchant_filter_step_single (o : Offer) (h : is_single_merchant o.merchants = true) :
    ∃ e, merchant_filter_step o = .error e := by
  obtain ⟨oid, ocat, ovt, omer⟩ := o
  rcases omer with m | ms
  · by_cases hx : m.extra.length + 1 > 1
    · exact ⟨.attributeError, by rw [merchant_filter_step_single_eq, if_pos hx]⟩
    · exact ⟨.keyError, by rw [merchant_filter_step_single_eq, if_neg hx]⟩
  · simp [is_single_merchant] at h

/-- The concrete offer used to settle claim C1: one offer carrying a
non-empty list of one merchant record. -/
def c1_offer : Offer :=
  { id := 1, category := 1, validTo := "1-1-2030",
    merchants := .many [{ distance := 3, extra := [] }] }

/-- Counterexample to claim C1 as stated: on the one-offer working set
[c1_offer], whose offer carries a non-empty list of merchant records,
applying merchant_filter twice does not yield the same working set as
applying it once — the first application succeeds and collapses the
merchants field to a single record, and the second application raises
(KeyError: a JSON merchant record has no integer key 0). -/
theorem C1_counterexample :
    ¬ ((merchant_filter [c1_offer]).bind merchant_filter = merchant_filter [c1_offer]) := by
  decide

/-- Claim C1 amended: on a working set of offers each carrying a non-empty
list of merchant records, one application of merchant_filter succeeds and
leaves every offer with a single merchant record; a second application
then raises an exception whenever the working set is non-empty (a single
merchant record is not a fixed point of merchant_filter), and only the
empty working set is mapped to itself. -/
theorem C1_amended_merchant_filter_not_idempotent (ws : List Offer)
    (h : ∀ o ∈ ws, is_nonempty_merchant_list o.merchants = true) :
    ∃ ws2, merchant_filter ws = .ok ws2 ∧
      (∀ o ∈ ws2, is_single_merchant o.merchants = true) ∧
      (ws = [] → merchant_filter ws2 = .ok ws2) ∧
      (ws ≠ [] → ∃ e, merchant_filter ws2 = .error e) := by
  induction ws with
  | nil =>
    exact ⟨[], rfl, by simp, fun _ => rfl, fun hne => absurd rfl hne⟩
  | cons o rest ih =>
    obtain ⟨m, hstep⟩ := merchant_filter_step_many o (h o (List.mem_cons_self _ _))
    obtain ⟨rest2, hrest, hsingle, _, _⟩ :=
      ih (fun o2 ho2 => h o2 (List.mem_cons_of_mem _ ho2))
    refine ⟨{ o with merchants := .single m } :: rest2, ?_, ?_, ?_, ?_⟩
    · unfold merchant_filter
      rw [hstep, hrest]
    · intro o2 ho2
      rcases List.mem_cons.mp ho2 with heq | hmem
      · rw [heq]; rfl
      · exact hsingle o2 hmem
    · intro hcontra; cases hcontra
    · intro _
      obtain ⟨e, he⟩ := merchant_filter_step_single { o with merchants := .single m } rfl
      refine ⟨e, ?_⟩
      unfold merchant_filter
      rw [he]

/-- Witness for the amended C1 at the concrete working set [c1_offer]. -/
theorem C1_amended_merchant_filter_not_idempotent_witness :
    (∀ o ∈ [c1_offer], is_nonempty_merchant_list o.merchants = true) ∧
    ∃ ws2, merchant_filter [c1_offer] = .ok ws2 ∧
      (∀ o ∈ ws2, is_single_merchant o.merchants = true) ∧
      ([c1_offer] = ([] : List Offer) → merchant_filter ws2 = .ok ws2) ∧
      ([c1_offer] ≠ ([] : List Offer) → ∃ e, merchant_filter ws2 = .error e) :=
  ⟨by decide, C1_amended_merchant_filter_not_idempotent [c1_offer] (by decide)⟩

/-- Specification-side definition of the lexicographic "date A is after
date B" test on (year, month, day) triples: year first, then month, then
day. The date_filter claim compares the code against this. -/
def lex_gt_triple : Int × Int × Int → Int × Int × Int → Bool
  | (a1, a2, a3), (b1, b2, b3) =>
    decide (a1 > b1) ||
      (decide (a1 = b1) && (decide (a2 > b2) || (decide (a2 = b2) && decide (a3 > b3))))

theorem is_expired_eq_core (checkin validTo : String) (n : Int) (cy cm cd ey em ed : Int)
    (hL : get_last_stay_date checkin n = .ok (cy, cm, cd))
    (hE : get_year_month_day_from_str validTo = .ok (ey, em, ed)) :
    is_expired checkin validTo n =
      (if cy > ey then .ok (some true)
       else if cy = ey then
         if cm > em then .ok (some true)
         else if cm = em then
           (if cd > ed then .ok (some true) else .ok (some false))
         else .ok none
       else .ok (some false)) := by
  unfold is_expired
  rw [hL, hE]

theorem is_expired_lex (checkin validTo : String) (n : Int) (cy cm cd ey em ed : Int)
    (hL : get_last_stay_date checkin n = .ok (cy, cm, cd))
    (hE : get_year_month_day_from_str validTo = .ok (ey, em, ed)) :
    ∃ v, is_expired checkin validTo n = .ok v ∧
      not_truthy v = !lex_gt_triple (cy, cm, cd) (ey, em, ed) := by
  rw [is_expired_eq_core checkin validTo n cy cm cd ey em ed hL hE]
  by_cases h1 : cy > ey
  · exact ⟨some true, by rw [if_pos h1], by simp [not_truthy, lex_gt_triple, h1]⟩
  · rw [if_neg h1]
    by_cases h2 : cy = ey
    · rw [if_pos h2]
      by_cases h3 : cm > em
      · exact ⟨some true, by rw [if_pos h3],
          by simp [not_truthy, lex_gt_triple, h1, h2, h3]⟩
      · rw [if_neg h3]
        by_cases h4 : cm = em
        · rw [if_pos h4]
          by_cases h5 : cd > ed
          · exact ⟨some true, by rw [if_pos h5],
              by simp [not_truthy, lex_gt_triple, h1, h2, h3, h4, h5]⟩
          · exact ⟨some false, by rw [if_neg h5],
              by simp [not_truthy, lex_gt_triple, h1, h2, h3, h4, h5]⟩
        · exact ⟨none, by rw [if_neg h4],
            by simp [not_truthy, lex_gt_triple, h1, h2, h3, h4]⟩
    · exact ⟨some false, by rw [if_neg h2], by simp [not_truthy, lex_gt_triple, h1, h2]⟩

theorem date_filter_cons_eq (checkin : String) (n : Int) (o : Offer) (rest : List Offer)
    (v : Option Bool) (tail : List Offer)
    (h1 : is_expired checkin o.validTo n = .ok v)
    (h2 : date_filter checkin n rest = .ok tail) :
    date_filter checkin n (o :: rest) = .ok (if not_truthy v then o :: tail else tail) := by
  unfold date_filter
  rw [h1, h2]

theorem date_filter_spec (checkin : String) (n : Int) (L : Int × Int × Int)
    (hL : get_last_stay_date checkin n = .ok L) (offers : List Offer) :
    (∀ o ∈ offers, is_valid_date o.validTo = .ok true) →
    ∃ res, date_filter checkin n offers = .ok res ∧
      ∀ o, o ∈ res ↔ (o ∈ offers ∧
        ∃ E, get_year_month_day_from_str o.validTo = .ok E ∧ lex_gt_triple L E = false) := by
  obtain ⟨cy, cm, cd⟩ := L
  induction offers with
  | nil => exact fun _ => ⟨[], rfl, by simp⟩
  | cons o rest ih =>
    intro hoffers
    obtain ⟨res, hres, hiff⟩ := ih (fun o2 h2 => hoffers o2 (List.mem_cons_of_mem _ h2))
    have hvTo := hoffers o (List.mem_cons_self _ _)
    obtain ⟨ey, em, ed, hpe, _, _, _, _⟩ := valid_date_bounds o.validTo hvTo
    obtain ⟨v, hexp, hnt⟩ := is_expired_lex checkin o.validTo n cy cm cd ey em ed hL hpe
    refine ⟨if not_truthy v then o :: res else res,
      date_filter_cons_eq checkin n o rest v res hexp hres, ?_⟩
    intro o2
    by_cases hcase : not_truthy v = true
    · have hlexf : lex_gt_triple (cy, cm, cd) (ey, em, ed) = false := by
        rw [hnt] at hcase
        simpa using hcase
      rw [if_pos hcase]
      constructor
      · intro hmem
        rcases List.mem_cons.mp hmem with heq | hmem2
        · subst heq
          exact ⟨List.mem_cons_self _ _, (ey, em, ed), hpe, hlexf⟩
        · obtain ⟨hmem3, E2, hpe2, hlex2⟩ := (hiff o2).mp hmem2
          exact ⟨List.mem_cons_of_mem _ hmem3, E2, hpe2, hlex2⟩
      · rintro ⟨hmem, E2, hpe2, hlex2⟩
        rcases List.mem_cons.mp hmem with heq | hmem2
        · subst heq
          exact List.mem_cons_self _ _
        · exact List.mem_cons_of_mem _ ((hiff o2).mpr ⟨hmem2, E2, hpe2, hlex2⟩)
    · have hcase2 : not_truthy v = false := by
        revert hcase
        cases not_truthy v <;> simp
      have hlext : lex_gt_triple (cy, cm, cd) (ey, em, ed) = true := by
        rw [hnt] at hcase2
        simpa using hcase2
      rw [if_neg hcase]
      constructor
      · intro hmem2
        obtain ⟨hmem3, E2, hpe2, hlex2⟩ := (hiff o2).mp hmem2
        exact ⟨List.mem_cons_of_mem _ hmem3, E2, hpe2, hlex2⟩
      · rintro ⟨hmem, E2, hpe2, hlex2⟩
        rcases List.mem_cons.mp hmem with heq | hmem2
        · subst heq
          rw [hpe] at hpe2
          injection hpe2 with hE2
          rw [← hE2] at hlex2
          exact absurd (hlex2.symm.trans hlext) (by decide)
        · exact (hiff o2).mpr ⟨hmem2, E2, hpe2, hlex2⟩

/-- Claim C2: for a working set of well-formed offers, a valid checkin date
string and 0 ≤ n ≤ 31, date_filter keeps an offer exactly when the
(year, month, day) triple returned by addDays(checkinDate, n) is not
lexicographically greater — year first, then month, then day — than the
parsed valid_to date of the offer. -/
theorem C2_date_filter_keeps_unexpired (checkin : String) (n : Int) (offers : List Offer)
    (hv : is_valid_date checkin = .ok true)
    (hn0 : 0 ≤ n) (hn31 : n ≤ 31)
    (hoffers : ∀ o ∈ offers, is_valid_date o.validTo = .ok true) :
    ∃ L res, get_last_stay_date checkin n = .ok L ∧
      date_filter checkin n offers = .ok res ∧
      ∀ o, o ∈ res ↔ (o ∈ offers ∧
        ∃ E, get_year_month_day_from_str o.validTo = .ok E ∧ lex_gt_triple L E = false) := by
  obtain ⟨y, m, d, hp, _, _, _, _⟩ := valid_date_bounds checkin hv
  have hL := get_last_stay_date_eq checkin y m d n hv hp hn31
  obtain ⟨res, hres, hiff⟩ := date_filter_spec checkin n _ hL offers hoffers
  exact ⟨_, res, hL, hres, hiff⟩

/-- The offer kept in the C2 witness: valid to the last staying date. -/
def c2_offer_kept : Offer :=
  { id := 1, category := 1, validTo := "2023-4-30",
    merchants := .many [{ distance := 3, extra := [] }] }

/-- The offer dropped in the C2 witness: expires one day before the last
staying date. -/
def c2_offer_dropped : Offer :=
  { id := 2, category := 2, validTo := "2023-4-29",
    merchants := .many [{ distance := 5, extra := [] }] }

/-- Witness for C2 at checkin "4-25-2023" with 5 extension days over a
two-offer working set. -/
theorem C2_date_filter_keeps_unexpired_witness :
    is_valid_date "4-25-2023" = .ok true ∧
    (∀ o ∈ [c2_offer_kept, c2_offer_dropped], is_valid_date o.validTo = .ok true) ∧
    ∃ L res, get_last_stay_date "4-25-2023" 5 = .ok L ∧
      date_filter "4-25-2023" 5 [c2_offer_kept, c2_offer_dropped] = .ok res ∧
      ∀ o, o ∈ res ↔ (o ∈ [c2_offer_kept, c2_offer_dropped] ∧
        ∃ E, get_year_month_day_from_str o.validTo = .ok E ∧ lex_gt_triple L E = false) :=
  ⟨by decide, by decide,
    C2_date_filter_keeps_unexpired "4-25-2023" 5 [c2_offer_kept, c2_offer_dropped]
      (by decide) (by decide) (by decide) (by decide)⟩

/-- The CATEGORY enum member name of a category id; "" on an invalid id,
where get_category_enum raises instead. -/
def enum_name (c : Int) : String :=
  match get_category_enum c with
  | .ok nm => nm
  | .error _ => ""

theorem get_category_enum_valid (c : Int) (h : is_valid_category_id c = true) :
    get_category_enum c = .ok (enum_name c) := by
  unfold is_valid_category_id at h
  simp only [Bool.or_eq_true, decide_eq_true_eq] at h
  rcases h with ((rfl | rfl) | rfl) | rfl <;> rfl

/-- Association lookup on the category map, as an Option. -/
def entry_get (m : List (String × List Offer)) (k : String) : Option (List Offer) :=
  match m with
  | [] => none
  | (k2, os) :: rest => if k2 = k then some os else entry_get rest k

theorem map_lookup_entry_get (m : List (String × List Offer)) (k : String) :
    map_lookup m k =
      (match entry_get m k with
       | some os => .ok os
       | none => .error .keyError) := by
  induction m with
  | nil => rfl
  | cons kv rest ih =>
    obtain ⟨k2, os⟩ := kv
    simp only [map_lookup, entry_get]
    by_cases h : k2 = k
    · rw [if_pos h, if_pos h]
    · rw [if_neg h, if_neg h, ih]

theorem add_to_map_entry_get (m : List (String × List Offer)) (k k2 : String) (o : Offer) :
    entry_get (add_to_map m k o) k2 =
      if k2 = k then some ((entry_get m k).getD [] ++ [o]) else entry_get m k2 := by
  induction m with
  | nil =>
    simp only [add_to_map, entry_get]
    by_cases h : k2 = k
    · rw [if_pos h.symm, if_pos h]
      rfl
    · rw [if_neg (Ne.symm h), if_neg h]
  | cons kv rest ih =>
    obtain ⟨k3, os3⟩ := kv
    by_cases h3 : k3 = k
    · subst h3
      by_cases h2 : k2 = k3
      · subst h2
        simp [add_to_map, entry_get]
      · simp [add_to_map, entry_get, h2, Ne.symm h2]
    · by_cases h2 : k2 = k
      · subst h2
        simp [add_to_map, entry_get, h3, ih, Ne.symm h3]
      · by_cases h4 : k3 = k2
        · subst h4
          simp [add_to_map, entry_get, h3, ih, h2]
        · simp [add_to_map, entry_get, h3, h4, ih, h2]

/-- How one offer extends a category-map cell. -/
def entry_combine (e : Option (List Offer)) (fl : List Offer) : Option (List Offer) :=
  match e with
  | some os => some (os ++ fl)
  | none => if fl = [] then none else some fl

theorem entry_combine_nil (e : Option (List Offer)) : entry_combine e [] = e := by
  rcases e with _ | os <;> simp [entry_combine]

theorem build_map_spec :
    ∀ (offers : List Offer) (acc : List (String × List Offer)),
    (∀ o ∈ offers, is_valid_category_id o.category = true) →
    ∃ mp, build_category_offers_map offers acc = .ok mp ∧
      ∀ k, entry_get mp k =
        entry_combine (entry_get acc k)
          (offers.filter (fun o => enum_name o.category == k)) := by
  intro offers
  induction offers with
  | nil =>
    intro acc _
    exact ⟨acc, rfl, fun k => (entry_combine_nil (entry_get acc k)).symm⟩
  | cons o rest ih =>
    intro acc hvalid
    have henum := get_category_enum_valid o.category (hvalid o (List.mem_cons_self _ _))
    have hstep : build_category_offers_map (o :: rest) acc =
        build_category_offers_map rest (add_to_map acc (enum_name o.category) o) := by
      show (match get_category_enum o.category with
            | .error e => (.error e : Except PyErr (List (String × List Offer)))
            | .ok name => build_category_offers_map rest (add_to_map acc name o)) =
        build_category_offers_map rest (add_to_map acc (enum_name o.category) o)
      rw [henum]
    obtain ⟨mp, hmp, hent⟩ :=
      ih (add_to_map acc (enum_name o.category) o)
        (fun o2 h2 => hvalid o2 (List.mem_cons_of_mem _ h2))
    refine ⟨mp, hstep.trans hmp, fun k => ?_⟩
    rw [hent k, add_to_map_entry_get]
    by_cases hk : k = enum_name o.category
    · rw [if_pos hk, hk]
      rw [show (o :: rest).filter
            (fun o2 => enum_name o2.category == enum_name o.category) =
            o :: rest.filter (fun o2 => enum_name o2.category == enum_name o.category) from by
        simp [List.filter_cons]]
      rcases hacc : entry_get acc (enum_name o.category) with _ | os
      · simp [entry_combine, hacc]
      · simp [entry_combine, hacc]
    · rw [if_neg hk]
      rw [show (o :: rest).filter (fun o2 => enum_name o2.category == k) =
            rest.filter (fun o2 => enum_name o2.category == k) from by
        simp [List.filter_cons, Ne.symm hk]]

theorem extend_loop_missing (mp : List (String × List Offer)) (ns : List String)
    (hmiss : ∃ nm ∈ ns, entry_get mp nm = none) :
    extend_loop mp ns = .error .keyError := by
  induction ns with
  | nil =>
    obtain ⟨nm, h, _⟩ := hmiss
    cases h
  | cons nm0 rest ih =>
    rcases hent : entry_get mp nm0 with _ | os
    · simp only [extend_loop, map_lookup_entry_get, hent]
    · obtain ⟨nm, hnm, hnone⟩ := hmiss
      rcases List.mem_cons.mp hnm with heq | hmem
      · subst heq
        rw [hent] at hnone
        cases hnone
      · have hrest := ih ⟨nm, hmem, hnone⟩
        simp only [extend_loop, map_lookup_entry_get, hent, hrest]

/-- Claim C7: if some requested category name, after uppercasing, matches no
offer currently in the working set (while every offer carries a valid
category id, per the data-model invariant), category_filter raises a
missing-key lookup error (KeyError) instead of returning an empty result for
that category. -/
theorem C7_category_filter_missing_raises (names : List String) (offers : List Offer)
    (hc : ∀ o ∈ offers, is_valid_category_id o.category = true)
    (hmiss : ∃ nm ∈ standardize_category_names names,
      ∀ o ∈ offers, get_category_enum o.category ≠ .ok nm) :
    category_filter names offers = .error .keyError := by
  obtain ⟨mp, hmp, hent⟩ := build_map_spec offers [] hc
  have hbuild : get_category_offers_map offers = .ok mp := hmp
  obtain ⟨nm, hnm, hnone⟩ := hmiss
  have hfil : offers.filter (fun o => enum_name o.category == nm) = [] := by
    rw [List.filter_eq_nil_iff]
    intro o ho
    have henum := get_category_enum_valid o.category (hc o ho)
    have hne := hnone o ho
    simp only [beq_iff_eq]
    intro hh
    exact hne (by rw [hh] at henum; exact henum)
  have hiss : entry_get mp nm = none := by
    rw [hent nm, hfil]
    rfl
  unfold category_filter
  rw [hbuild]
  exact extend_loop_missing mp (standardize_category_names names) ⟨nm, hnm, hiss⟩

/-- The offer used in the C7 witness: category id 1 (RESTAURANT). -/
def c7_offer : Offer :=
  { id := 7, category := 1, validTo := "1-1-2030",
    merchants := .many [{ distance := 2, extra := [] }] }

/-- Witness for C7: requesting Retail when only a RESTAURANT offer is
present raises KeyError. -/
theorem C7_category_filter_missing_raises_witness :
    (∀ o ∈ [c7_offer], is_valid_category_id o.category = true) ∧
    (∃ nm ∈ standardize_category_names ["Retail"],
      ∀ o ∈ [c7_offer], get_category_enum o.category ≠ .ok nm) ∧
    category_filter ["Retail"] [c7_offer] = .error .keyError :=
  ⟨by decide, by decide,
    C7_category_filter_missing_raises ["Retail"] [c7_offer] (by decide) (by decide)⟩

/-- The key list of a category map, in insertion order. -/
def map_keys (m : List (String × List Offer)) : List String := m.map Prod.fst

theorem entry_get_none_iff (m : List (String × List Offer)) (k : String) :
    entry_get m k = none ↔ k ∉ map_keys m := by
  induction m with
  | nil => simp [entry_get, map_keys]
  | cons kv rest ih =>
    obtain ⟨k2, os⟩ := kv
    by_cases h : k2 = k
    · subst h
      simp [entry_get, map_keys]
    · simp [entry_get, map_keys, h, Ne.symm h, ih]

theorem add_to_map_keys (m : List (String × List Offer)) (k : String) (o : Offer) :
    map_keys (add_to_map m k o) =
      (if entry_get m k = none then map_keys m ++ [k] else map_keys m) := by
  induction m with
  | nil => simp [add_to_map, map_keys, entry_get]
  | cons kv rest ih =>
    obtain ⟨k2, os⟩ := kv
    by_cases h : k2 = k
    · subst h
      simp [add_to_map, map_keys, entry_get]
    · have hadd : add_to_map ((k2, os) :: rest) k o = (k2, os) :: add_to_map rest k o := by
        simp [add_to_map, h]
      have hget : entry_get ((k2, os) :: rest) k = entry_get rest k := by
        simp [entry_get, h]
      rw [hadd,
        show map_keys ((k2, os) :: add_to_map rest k o) =
          k2 :: map_keys (add_to_map rest k o) from rfl,
        ih, hget]
      by_cases h2 : entry_get rest k = none
      · rw [if_pos h2, if_pos h2]
        rfl
      · rw [if_neg h2, if_neg h2]
        rfl

theorem add_to_map_keys_nodup (m : List (String × List Offer)) (k : String) (o : Offer)
    (h : (map_keys m).Nodup) : (map_keys (add_to_map m k o)).Nodup := by
  rw [add_to_map_keys]
  by_cases hk : entry_get m k = none
  · rw [if_pos hk]
    have hnm := (entry_get_none_iff m k).mp hk
    refine List.Nodup.append h (List.nodup_singleton k) ?_
    intro a ha hka
    rw [List.mem_singleton] at hka
    subst hka
    exact hnm ha
  · rw [if_neg hk]
    exact h

theorem build_map_keys_nodup :
    ∀ (offers : List Offer) (acc : List (String × List Offer)),
    (map_keys acc).Nodup →
    ∀ mp, build_category_offers_map offers acc = .ok mp → (map_keys mp).Nodup := by
  intro offers
  induction offers with
  | nil =>
    intro acc hacc mp hmp
    injection hmp with h
    rw [← h]
    exact hacc
  | cons o rest ih =>
    intro acc hacc mp hmp
    rcases henum : get_category_enum o.category with e | nm
    · unfold build_category_offers_map at hmp
      rw [henum] at hmp
      simp at hmp
    · unfold build_category_offers_map at hmp
      rw [henum] at hmp
      exact ih (add_to_map acc nm o) (add_to_map_keys_nodup acc nm o hacc) mp hmp

theorem mem_entry_get (m : List (String × List Offer)) (k : String) (os : List Offer)
    (hnodup : (map_keys m).Nodup) (hmem : (k, os) ∈ m) : entry_get m k = some os := by
  induction m with
  | nil => cases hmem
  | cons kv rest ih =>
    obtain ⟨k2, os2⟩ := kv
    simp only [map_keys, List.map_cons, List.nodup_cons] at hnodup
    rcases List.mem_cons.mp hmem with heq | hmem2
    · cases heq
      simp [entry_get]
    · have hk2 : k2 ≠ k := by
        intro hh
        subst hh
        exact hnodup.1 (List.mem_map.mpr ⟨(k2, os), hmem2, rfl⟩)
      simp only [entry_get, if_neg hk2]
      exact ih hnodup.2 hmem2

theorem insert_offer_ne_nil (x : Offer) (l : List Offer) : insert_offer_by_dist x l ≠ [] := by
  cases l with
  | nil => simp [insert_offer_by_dist]
  | cons y ys =>
    simp only [insert_offer_by_dist]
    split <;> simp

theorem sort_offers_eq_nil (l : List Offer) (h : sort_offers_by_dist l = []) : l = [] := by
  cases l with
  | nil => rfl
  | cons x xs =>
    exfalso
    rw [sort_offers_by_dist] at h
    exact insert_offer_ne_nil x (sort_offers_by_dist xs) h

theorem sort_offers_head_min (l : List Offer) :
    ∀ top t, sort_offers_by_dist l = top :: t →
      top ∈ l ∧ ∀ y ∈ l, mdist top ≤ mdist y := by
  induction l with
  | nil => intro top t h; cases h
  | cons x xs ih =>
    intro top t h
    rw [sort_offers_by_dist] at h
    rcases hs : sort_offers_by_dist xs with _ | ⟨z, zs⟩
    · have hxs := sort_offers_eq_nil xs hs
      subst hxs
      rw [hs] at h
      simp only [insert_offer_by_dist] at h
      injection h with h1 h2
      subst h1
      exact ⟨List.mem_cons_self _ _, by
        intro y hy
        rcases List.mem_cons.mp hy with hyx | hyn
        · rw [hyx]
        · cases hyn⟩
    · rw [hs] at h
      obtain ⟨hzmem, hzmin⟩ := ih z zs hs
      simp only [insert_offer_by_dist] at h
      split at h
      next hlt =>
        injection h with h1 h2
        subst h1
        refine ⟨List.mem_cons_of_mem _ hzmem, ?_⟩
        intro y hy
        rcases List.mem_cons.mp hy with hyx | hyxs
        · rw [hyx]
          exact le_of_lt hlt
        · exact hzmin y hyxs
      next hlt =>
        injection h with h1 h2
        subst h1
        refine ⟨List.mem_cons_self _ _, ?_⟩
        intro y hy
        rcases List.mem_cons.mp hy with hyx | hyxs
        · rw [hyx]
        · exact le_trans (not_lt.mp hlt) (hzmin y hyxs)

theorem closest_per_entry_loop_spec (offers : List Offer)
    (hs : ∀ o ∈ offers, is_single_merchant o.merchants = true) :
    ∀ entries : List (String × List Offer),
    (∀ e ∈ entries, e.2 = offers.filter (fun o2 => enum_name o2.category == e.1) ∧ e.2 ≠ []) →
    ∃ res, closest_per_entry_loop entries = .ok res ∧
      res.map (fun o => enum_name o.category) = map_keys entries ∧
      ∀ o ∈ res, o ∈ offers ∧
        ∀ o2 ∈ offers, o2.category = o.category → mdist o ≤ mdist o2 := by
  intro entries
  induction entries with
  | nil => exact fun _ => ⟨[], rfl, rfl, by simp⟩
  | cons e rest ih =>
    intro hent
    obtain ⟨k, os⟩ := e
    obtain ⟨hfil0, hne0⟩ := hent (k, os) (List.mem_cons_self _ _)
    have hfil : os = offers.filter (fun o2 => enum_name o2.category == k) := hfil0
    have hne : os ≠ [] := hne0
    have hsub : ∀ o ∈ os, o ∈ offers := by
      intro o ho
      rw [hfil] at ho
      exact List.mem_of_mem_filter ho
    have hall : os.all (fun o => is_single_merchant o.merchants) = true := by
      rw [List.all_eq_true]
      exact fun o ho => hs o (hsub o ho)
    rcases hsort : sort_offers_by_dist os with _ | ⟨top, t⟩
    · exact absurd (sort_offers_eq_nil os hsort) hne
    · obtain ⟨htopmem, htopmin⟩ := sort_offers_head_min os top t hsort
      have hk : enum_name top.category = k := by
        have hmem2 := htopmem
        rw [hfil] at hmem2
        have hpred := List.of_mem_filter hmem2
        simpa using hpred
      obtain ⟨res, hres, hmap, hprop⟩ := ih (fun e2 he2 => hent e2 (List.mem_cons_of_mem _ he2))
      refine ⟨top :: res, ?_, ?_, ?_⟩
      · simp [closest_per_entry_loop, hall, hsort, hres]
      · rw [List.map_cons, hmap,
          show map_keys ((k, os) :: rest) = k :: map_keys rest from rfl, hk]
      · intro o ho
        rcases List.mem_cons.mp ho with heq | hmem
        · subst heq
          refine ⟨hsub o htopmem, ?_⟩
          intro o2 ho2 hcat
          have ho2os : o2 ∈ os := by
            rw [hfil]
            refine List.mem_filter.mpr ⟨ho2, ?_⟩
            simp [hcat, hk]
          exact htopmin o2 ho2os
        · exact hprop o hmem

/-- Claim C9: on a working set whose offers all carry a single merchant
record (the state after merchant_filter) and valid category ids,
closest_merchant_per_category_filter yields at most one offer per category
name present, and each yielded offer comes from the working set with a
merchant distance no greater than that of every same-category offer of the
pre-filter working set. -/
theorem C9_closest_merchant_per_category (offers : List Offer)
    (hs : ∀ o ∈ offers, is_single_merchant o.merchants = true)
    (hc : ∀ o ∈ offers, is_valid_category_id o.category = true) :
    ∃ res, closest_merchant_per_category_filter offers = .ok res ∧
      (res.map (fun o => enum_name o.category)).Nodup ∧
      ∀ o ∈ res, o ∈ offers ∧
        ∀ o2 ∈ offers, o2.category = o.category → mdist o ≤ mdist o2 := by
  obtain ⟨mp, hmp, hent⟩ := build_map_spec offers [] hc
  have hkeys : (map_keys mp).Nodup :=
    build_map_keys_nodup offers [] (by simp [map_keys]) mp hmp
  have hspec : ∀ e ∈ mp,
      e.2 = offers.filter (fun o2 => enum_name o2.category == e.1) ∧ e.2 ≠ [] := by
    intro e he
    obtain ⟨k, os⟩ := e
    have hget : entry_get mp k = some os := mem_entry_get mp k os hkeys he
    rw [hent k] at hget
    simp only [entry_get, entry_combine] at hget
    split at hget
    · cases hget
    next hfil =>
      injection hget with hos
      exact ⟨hos.symm, by rw [← hos]; exact hfil⟩
  obtain ⟨res, hres, hmap, hprop⟩ := closest_per_entry_loop_spec offers hs mp hspec
  refine ⟨res, ?_, ?_, hprop⟩
  · unfold closest_merchant_per_category_filter
    rw [show get_category_offers_map offers = .ok mp from hmp]
    exact hres
  · rw [hmap]
    exact hkeys

/-- Offers for the C9 witness: two RESTAURANT offers with distances 5 and 3
and one RETAIL offer with distance 9, all with singular merchants. -/
def c9_offers : List Offer :=
  [{ id := 1, category := 1, validTo := "1-1-2030",
     merchants := .single { distance := 5, extra := [] } },
   { id := 2, category := 1, validTo := "1-1-2030",
     merchants := .single { distance := 3, extra := [] } },
   { id := 3, category := 2, validTo := "1-1-2030",
     merchants := .single { distance := 9, extra := [] } }]

/-- Witness for C9 at the concrete three-offer working set. -/
theorem C9_closest_merchant_per_category_witness :
    (∀ o ∈ c9_offers, is_single_merchant o.merchants = true) ∧
    (∀ o ∈ c9_offers, is_valid_category_id o.category = true) ∧
    ∃ res, closest_merchant_per_category_filter c9_offers = .ok res ∧
      (res.map (fun o => enum_name o.category)).Nodup ∧
      ∀ o ∈ res, o ∈ c9_offers ∧
        ∀ o2 ∈ c9_offers, o2.category = o.category → mdist o ≤ mdist o2 :=
  ⟨by decide, by decide,
    C9_closest_merchant_per_category c9_offers (by decide) (by decide)⟩

theorem closest_loop_cons_seen_eq (o : Offer) (rest : List Offer) (seen : List Int)
    (md : Option Int) (best : Option Offer) (hseen : o.id ∈ seen) :
    closest_loop (o :: rest) seen md best = closest_loop rest seen md best := by
  simp only [closest_loop]
  rw [if_pos hseen]

theorem closest_loop_cons_unseen (o : Offer) (rest : List Offer) (seen : List Int)
    (md : Option Int) (best : Option Offer) (m : Merchant)
    (hseen : o.id ∉ seen) (hm : o.merchants = .single m) :
    closest_loop (o :: rest) seen md best =
      if (match md with | none => true | some v => decide (m.distance < v)) = true then
        closest_loop rest seen (some m.distance) (some o)
      else closest_loop rest seen md best := by
  simp only [closest_loop]
  rw [if_neg hseen, hm]

theorem closest_loop_gen :
    ∀ (offers : List Offer) (seen : List Int) (b : Offer),
    (∀ o ∈ offers, is_single_merchant o.merchants = true) →
    b.id ∉ seen →
    ∃ r, closest_loop offers seen (some (mdist b)) (some b) = .ok (some r) ∧
      (r = b ∨ r ∈ offers) ∧ r.id ∉ seen ∧ mdist r ≤ mdist b ∧
      ∀ o ∈ offers, o.id ∉ seen → mdist r ≤ mdist o := by
  intro offers
  induction offers with
  | nil =>
    intro seen b _ hb
    exact ⟨b, rfl, Or.inl rfl, hb, le_refl _, by simp⟩
  | cons o rest ih =>
    intro seen b hs hb
    have hso := hs o (List.mem_cons_self _ _)
    have hsrest : ∀ o2 ∈ rest, is_single_merchant o2.merchants = true :=
      fun o2 h2 => hs o2 (List.mem_cons_of_mem _ h2)
    by_cases hseen : o.id ∈ seen
    · obtain ⟨r, heq, hmem, hun, hle, hmin⟩ := ih seen b hsrest hb
      refine ⟨r, (closest_loop_cons_seen_eq o rest seen _ _ hseen).trans heq,
        ?_, hun, hle, ?_⟩
      · rcases hmem with h | h
        · exact Or.inl h
        · exact Or.inr (List.mem_cons_of_mem _ h)
      · intro o2 ho2 ho2un
        rcases List.mem_cons.mp ho2 with heq2 | hmem2
        · rw [heq2] at ho2un
          exact absurd hseen ho2un
        · exact hmin o2 hmem2 ho2un
    · rcases ho : o.merchants with m | ms
      · have hloopeq := closest_loop_cons_unseen o rest seen (some (mdist b)) (some b) m hseen ho
        have hmdist : mdist o = m.distance := by simp [mdist, ho]
        by_cases hlt : m.distance < mdist b
        · have hcond : ((match (some (mdist b) : Option Int) with
              | none => true | some v => decide (m.distance < v)) = true) := by simp [hlt]
          rw [hloopeq, if_pos hcond]
          obtain ⟨r, heq, hmem, hun, hle, hmin⟩ := ih seen o hsrest hseen
          rw [hmdist] at heq hle
          refine ⟨r, heq, ?_, hun, ?_, ?_⟩
          · rcases hmem with h | h
            · exact Or.inr (by rw [h]; exact List.mem_cons_self _ _)
            · exact Or.inr (List.mem_cons_of_mem _ h)
          · exact le_of_lt (lt_of_le_of_lt hle hlt)
          · intro o2 ho2 ho2un
            rcases List.mem_cons.mp ho2 with heq2 | hmem2
            · rw [heq2, hmdist]
              exact hle
            · exact hmin o2 hmem2 ho2un
        · have hcond : ¬ ((match (some (mdist b) : Option Int) with
              | none => true | some v => decide (m.distance < v)) = true) := by simp [hlt]
          rw [hloopeq, if_neg hcond]
          obtain ⟨r, heq, hmem, hun, hle, hmin⟩ := ih seen b hsrest hb
          refine ⟨r, heq, ?_, hun, hle, ?_⟩
          · rcases hmem with h | h
            · exact Or.inl h
            · exact Or.inr (List.mem_cons_of_mem _ h)
          · intro o2 ho2 ho2un
            rcases List.mem_cons.mp ho2 with heq2 | hmem2
            · rw [heq2, hmdist]
              exact le_trans hle (not_lt.mp hlt)
            · exact hmin o2 hmem2 ho2un
      · rw [ho] at hso
        simp [is_single_merchant] at hso

theorem closest_loop_none_spec :
    ∀ (offers : List Offer) (seen : List Int),
    (∀ o ∈ offers, is_single_merchant o.merchants = true) →
    (closest_loop offers seen none none = .ok none ∧ ∀ o ∈ offers, o.id ∈ seen) ∨
    (∃ r, closest_loop offers seen none none = .ok (some r) ∧ r ∈ offers ∧ r.id ∉ seen ∧
      ∀ o ∈ offers, o.id ∉ seen → mdist r ≤ mdist o) := by
  intro offers
  induction offers with
  | nil =>
    intro seen _
    exact Or.inl ⟨rfl, by simp⟩
  | cons o rest ih =>
    intro seen hs
    have hso := hs o (List.mem_cons_self _ _)
    have hsrest : ∀ o2 ∈ rest, is_single_merchant o2.merchants = true :=
      fun o2 h2 => hs o2 (List.mem_cons_of_mem _ h2)
    by_cases hseen : o.id ∈ seen
    · have heq := closest_loop_cons_seen_eq o rest seen none none hseen
      rcases ih seen hsrest with ⟨heq2, hall⟩ | ⟨r, heq2, hmem, hun, hmin⟩
      · refine Or.inl ⟨heq.trans heq2, ?_⟩
        intro o2 ho2
        rcases List.mem_cons.mp ho2 with heq3 | hmem2
        · rw [heq3]
          exact hseen
        · exact hall o2 hmem2
      · refine Or.inr ⟨r, heq.trans heq2, List.mem_cons_of_mem _ hmem, hun, ?_⟩
        intro o2 ho2 ho2un
        rcases List.mem_cons.mp ho2 with heq3 | hmem2
        · rw [heq3] at ho2un
          exact absurd hseen ho2un
        · exact hmin o2 hmem2 ho2un
    · rcases ho : o.merchants with m | ms
      · have hloopeq := closest_loop_cons_unseen o rest seen none none m hseen ho
        have hmdist : mdist o = m.distance := by simp [mdist, ho]
        rw [hloopeq, if_pos rfl]
        obtain ⟨r, heq, hmem, hun, hle, hmin⟩ := closest_loop_gen rest seen o hsrest hseen
        rw [hmdist] at heq
        refine Or.inr ⟨r, heq, ?_, hun, ?_⟩
        · rcases hmem with h | h
          · rw [h]
            exact List.mem_cons_self _ _
          · exact List.mem_cons_of_mem _ h
        · intro o2 ho2 ho2un
          rcases List.mem_cons.mp ho2 with heq3 | hmem2
          · rw [heq3]
            exact hle
          · exact hmin o2 hmem2 ho2un
      · rw [ho] at hso
        simp [is_single_merchant] at hso

/-- Claim C3: on a working set of offers carrying singular merchant records
and pairwise-distinct ids, top_two_offers_filter returns [] on the empty set,
the sole offer on a one-offer set, and on a set of two or more offers exactly
two offers with distinct ids whose merchant distances are the two smallest in
the working set (the first minimizes distance over the whole set, the second
over the offers with a different id than the first). -/
theorem C3_top_two_offers (offers : List Offer)
    (hs : ∀ o ∈ offers, is_single_merchant o.merchants = true)
    (hnd : (offers.map (fun o => o.id)).Nodup) :
    (offers = [] → top_two_offers_filter offers = .ok []) ∧
    (∀ o0, offers = [o0] → top_two_offers_filter offers = .ok [o0]) ∧
    (2 ≤ offers.length →
      ∃ o1 o2, top_two_offers_filter offers = .ok [o1, o2] ∧
        o1 ∈ offers ∧ o2 ∈ offers ∧ o1.id ≠ o2.id ∧
        (∀ o ∈ offers, mdist o1 ≤ mdist o) ∧
        (∀ o ∈ offers, o.id ≠ o1.id → mdist o2 ≤ mdist o)) := by
  refine ⟨?_, ?_, ?_⟩
  · intro h
    subst h
    rfl
  · intro o0 h
    subst h
    have hso := hs o0 (List.mem_cons_self _ _)
    rcases ho : o0.merchants with m | ms
    · have h1 : get_closest_merchant_offer [o0] [] = .ok (some o0) := by
        unfold get_closest_merchant_offer
        rw [closest_loop_cons_unseen o0 [] [] none none m (by simp) ho, if_pos rfl]
        rfl
      have h2 : get_closest_merchant_offer [o0] [o0.id] = .ok none := by
        unfold get_closest_merchant_offer
        rw [closest_loop_cons_seen_eq o0 [] [o0.id] none none (by simp)]
        rfl
      simp [top_two_offers_filter, h1, h2]
    · rw [ho] at hso
      simp [is_single_merchant] at hso
  · intro hlen
    rcases closest_loop_none_spec offers [] hs with ⟨_, hall⟩ | ⟨r1, heq1, hmem1, _, hmin1⟩
    · rcases offers with _ | ⟨a, rest⟩
      · simp at hlen
      · exact absurd (hall a (List.mem_cons_self _ _)) (by simp)
    · rcases closest_loop_none_spec offers [r1.id] hs with ⟨_, hall2⟩ |
        ⟨r2, heq2, hmem2, hun2, hmin2⟩
      · exfalso
        rcases offers with _ | ⟨a, _ | ⟨b, rest⟩⟩
        · simp at hlen
        · simp at hlen
        · have ha := hall2 a (by simp)
          have hbb := hall2 b (by simp)
          rw [List.mem_singleton] at ha hbb
          simp only [List.map_cons, List.nodup_cons, List.mem_cons] at hnd
          exact hnd.1 (Or.inl (ha.trans hbb.symm))
      · refine ⟨r1, r2, ?_, hmem1, hmem2, ?_, ?_, ?_⟩
        · simp [top_two_offers_filter, get_closest_merchant_offer, heq1, heq2]
        · intro hh
          exact hun2 (List.mem_singleton.mpr hh.symm)
        · intro o ho
          exact hmin1 o ho (by simp)
        · intro o ho hne
          refine hmin2 o ho ?_
          rw [List.mem_singleton]
          exact hne

/-- Offers for the C3 witness: distances 4 and 2, distinct ids. -/
def c3_offers : List Offer :=
  [{ id := 1, category := 1, validTo := "1-1-2030",
     merchants := .single { distance := 4, extra := [] } },
   { id := 2, category := 3, validTo := "1-1-2030",
     merchants := .single { distance := 2, extra := [] } }]

/-- Witness for C3 at the concrete two-offer working set. -/
theorem C3_top_two_offers_witness :
    (∀ o ∈ c3_offers, is_single_merchant o.merchants = true) ∧
    (c3_offers.map (fun o => o.id)).Nodup ∧
    ∃ o1 o2, top_two_offers_filter c3_offers = .ok [o1, o2] ∧
      o1 ∈ c3_offers ∧ o2 ∈ c3_offers ∧ o1.id ≠ o2.id ∧
      (∀ o ∈ c3_offers, mdist o1 ≤ mdist o) ∧
      (∀ o ∈ c3_offers, o.id ≠ o1.id → mdist o2 ≤ mdist o) :=
  ⟨by decide, by decide,
    (C3_top_two_offers c3_offers (by decide) (by decide)).2.2 (by decide)⟩
